import Mathlib

/-
Verification of the D3log accumulator layer
(`distributed_datalog/src/accumulate/accumulator.rs`).

The file embeds the `DistributingAccumulator` composite together with the
two collaborators it is built from, the `AccumulatingObserver` (a DeltaStore
plus a downstream forward) and the `TxnDistributor` (a multicast registry of
observers).  The composite's code (`accumulator.rs`) is embedded directly
from the source; the collaborators' code is not part of the sources at hand,
so their behaviour is modelled from the specification (sections 4.1 to 4.3),
as marked on each such definition.

Machine integers (`usize` relation ids and subscription handles) are
modelled as `Nat`: none of the embedded operations performs arithmetic that
could overflow in any execution reachable in the claims (handles only ever
increase by one per subscription).
-/

set_option autoImplicit false

namespace Accumulate

universe u v

variable {V : Type u} {E : Type v}

/-- Model of `differential_datalog::program::Update`, restricted to the two
variants that the accumulator layer produces and consumes: `Insert` and
`DeleteValue`, each carrying a relation id (`RelId = usize`, modelled as
`Nat`) and a value. -/
inductive Update (V : Type u) where
  | Insert (relid : Nat) (v : V)
  | DeleteValue (relid : Nat) (v : V)
  deriving DecidableEq

/-- One call of the `Observer` lifecycle interface, as received by a
downstream sink: `on_start`, `on_updates` with its batch, `on_commit`,
`on_completed`. -/
inductive Event (V : Type u) where
  | OnStart
  | OnUpdates (ups : List (Update V))
  | OnCommit
  | OnCompleted
  deriving DecidableEq

/-- The DeltaStore: a per-relation value collection,
`HashMap<RelId, HashSet<V>>` in the source, modelled as an association list
of relation id and value list.  Well-formed stores (`WFStore`) have distinct
relation ids and duplicate-free value lists, matching the map/set types. -/
abbrev Store (V : Type u) := List (Nat × List V)

/-- Modelled from the spec: `DeltaStore.apply` on `Insert(r, v)` adds `v` to
the set for `r`, creating the set for `r` if absent; inserting a value
already present is a no-op (section 4.1). -/
def storeInsert [DecidableEq V] : Store V → Nat → V → Store V
  | [], r, v => [(r, [v])]
  | (r', vs) :: rest, r, v =>
    if r' = r then (r', if v ∈ vs then vs else vs ++ [v]) :: rest
    else (r', vs) :: storeInsert rest r v

/-- Modelled from the spec: `DeltaStore.apply` on `Delete(r, v)` removes `v`
from the set for `r` if present, and is a no-op (never an error) otherwise
(section 4.1).  The relation's entry itself is kept, as a `HashMap` keeps a
key bound to an emptied `HashSet`. -/
def storeDelete [DecidableEq V] : Store V → Nat → V → Store V
  | [], _, _ => []
  | (r', vs) :: rest, r, v =>
    if r' = r then (r', vs.erase v) :: rest
    else (r', vs) :: storeDelete rest r v

/-- Modelled from the spec: applying one `DeltaOp` to the DeltaStore
(section 4.1). -/
def applyUpdate [DecidableEq V] (s : Store V) : Update V → Store V
  | Update.Insert r v => storeInsert s r v
  | Update.DeleteValue r v => storeDelete s r v

/-- All (relation id, value) pairs currently present in a store, in store
order.  This is the contents of the snapshot that `get_current_state`
returns. -/
def snapshotPairs (s : Store V) : List (Nat × V) :=
  s.flatMap fun p => p.2.map fun v => (p.1, v)

/-- The flattening that `subscribe` and `on_completed` perform on
`get_current_state()`: one update `mk relid v` for every value `v` of every
relation `relid`, built by `flat_map` over the snapshot
(accumulator.rs, lines 118-127 and 191-200). -/
def snapshotUpdates (s : Store V) (mk : Nat → V → Update V) : List (Update V) :=
  s.flatMap fun p => p.2.map fun v => mk p.1 v

/-- Well-formedness of a store: relation ids are distinct and each
relation's value list is duplicate-free.  This is the invariant the
`HashMap<RelId, HashSet<V>>` representation enforces by construction. -/
def WFStore (s : Store V) : Prop :=
  (s.map Prod.fst).Nodup ∧ ∀ p ∈ s, p.2.Nodup

/-- A registered downstream observer, in the style of the repository's own
`UpdatesMockObserver` test double: it records every lifecycle call it
receives, in order, and answers each call with a caller-chosen
`Result<(), E>` given by `respond`. -/
structure MockObserver (V : Type u) (E : Type v) where
  received : List (Event V)
  respond : Event V → Except E Unit

/-- Delivering one lifecycle call to an observer: the call is appended to
its received log and the observer's answer is returned next to the updated
observer. -/
def deliver (o : MockObserver V E) (e : Event V) : MockObserver V E × Except E Unit :=
  ({ o with received := o.received ++ [e] }, o.respond e)

/-- First error of a list of per-subscriber results, `Ok` when none fails.
Modelled from the spec: the distributor propagates the first failing
subscriber's error to the immediate caller while delivery to the remaining
subscribers still proceeds (section 7). -/
def firstError : List (Except E Unit) → Except E Unit
  | [] => Except.ok ()
  | Except.ok () :: rest => firstError rest
  | Except.error e :: _ => Except.error e

/-- Modelled from the spec: the `TxnDistributor`, a registry of subscribed
sinks keyed by monotonically increasing handles, with insertion order
preserved for delivery fan-out (sections 3 and 4.2). -/
structure TxnDistributor (V : Type u) (E : Type v) where
  nextHandle : Nat
  subscribers : List (Nat × MockObserver V E)

/-- Modelled from the spec: `TxnDistributor::subscribe` registers the sink
under the next unused handle and never fails (section 4.2). -/
def TxnDistributor.subscribe (d : TxnDistributor V E) (o : MockObserver V E) :
    TxnDistributor V E × Nat :=
  ({ nextHandle := d.nextHandle + 1,
     subscribers := d.subscribers ++ [(d.nextHandle, o)] }, d.nextHandle)

/-- Modelled from the spec: each forwarding call of the `TxnDistributor`
(`on_start`, `on_updates`, `on_commit`, `on_completed`) delivers the
identical call to every currently registered sink in registration order; a
failing sink neither gets unregistered nor aborts delivery to the remaining
sinks, and the first failure is reported to the caller
(sections 4.2 and 7). -/
def TxnDistributor.broadcast (d : TxnDistributor V E) (e : Event V) :
    TxnDistributor V E × Except E Unit :=
  ({ d with subscribers := d.subscribers.map fun p => (p.1, (deliver p.2 e).1) },
   firstError (d.subscribers.map fun p => (deliver p.2 e).2))

/-- The `DistributingAccumulator` composite: an `AccumulatingObserver`
(whose DeltaStore is the `state` field) subscribed by a shared
`TxnDistributor`.  The `id` and the lock cell around the distributor carry
no sequential behaviour and are not represented. -/
structure DistributingAccumulator (V : Type u) (E : Type v) where
  state : Store V
  distributor : TxnDistributor V E

/-- `DistributingAccumulator::new`: empty accumulated state, no
subscribers, handles starting fresh (accumulator.rs, lines 75-89). -/
def DistributingAccumulator.new : DistributingAccumulator V E :=
  { state := [], distributor := { nextHandle := 0, subscribers := [] } }

/-- `get_current_state` delegates to the `AccumulatingObserver`, which
answers its DeltaStore's snapshot (accumulator.rs, lines 97-100). -/
def DistributingAccumulator.get_current_state (a : DistributingAccumulator V E) : Store V :=
  a.state

/-- `on_start` delegates to the `AccumulatingObserver`: no state mutation,
the call is forwarded to the distributor and the downstream result is
returned (accumulator.rs, lines 165-168; spec section 4.3 for the
collaborator). -/
def DistributingAccumulator.on_start (a : DistributingAccumulator V E) :
    DistributingAccumulator V E × Except E Unit :=
  let r := a.distributor.broadcast Event.OnStart
  ({ a with distributor := r.1 }, r.2)

/-- `on_commit` delegates to the `AccumulatingObserver`: forward only
(accumulator.rs, lines 170-173; spec section 4.3 for the collaborator). -/
def DistributingAccumulator.on_commit (a : DistributingAccumulator V E) :
    DistributingAccumulator V E × Except E Unit :=
  let r := a.distributor.broadcast Event.OnCommit
  ({ a with distributor := r.1 }, r.2)

/-- `on_updates` delegates to the `AccumulatingObserver`: each update of the
batch is applied to the DeltaStore in order, then the full batch is
forwarded downstream unchanged (accumulator.rs, lines 175-181; spec
section 4.3 for the collaborator). -/
def DistributingAccumulator.on_updates [DecidableEq V] (a : DistributingAccumulator V E)
    (ups : List (Update V)) : DistributingAccumulator V E × Except E Unit :=
  let s := ups.foldl applyUpdate a.state
  let r := a.distributor.broadcast (Event.OnUpdates ups)
  ({ state := s, distributor := r.1 }, r.2)

/-- Modelled from the spec: `AccumulatingObserver::on_completed` clears the
DeltaStore, whatever its prior contents (section 4.3; section 3: the store
is cleared to empty exactly once, when a `Complete` signal is processed).  Its own downstream forward of
the completion is not deliverable through the distributor at this point of
`DistributingAccumulator::on_completed`: the composite holds the
distributor's exclusive lock for the whole call (section 5), and the net
per-subscriber contract is fixed at exactly one `Complete` notification
(sections 4.4 and 9), which the composite's direct
`distributor.on_completed()` call already provides — the repository's own
tests assert `called_on_completed == 1` per subscriber.  The step is
therefore modelled as clearing the store and answering `Ok`. -/
def accObserverOnCompleted (_s : Store V) : Store V × Except E Unit :=
  ([], Except.ok ())

/-- `DistributingAccumulator::on_completed` (accumulator.rs, lines
184-212): first the completion is forwarded through the distributor with
its result discarded (`let _ = distributor.on_completed()`); then a
deletion update `DeleteValue(relid, v)` is built for every pair of the
current state; if that batch is non-empty, a synthetic transaction
`on_start` / `on_updates(batch)` / `on_commit` is sent through the
distributor, each result discarded; finally the inner
`AccumulatingObserver::on_completed` runs and its result is returned. -/
def DistributingAccumulator.on_completed (a : DistributingAccumulator V E) :
    DistributingAccumulator V E × Except E Unit :=
  let d1 := (a.distributor.broadcast Event.OnCompleted).1
  let ds := snapshotUpdates a.state fun r v => Update.DeleteValue r v
  let d2 :=
    if ds.isEmpty then d1
    else
      let dA := (d1.broadcast Event.OnStart).1
      let dB := (dA.broadcast (Event.OnUpdates ds)).1
      (dB.broadcast Event.OnCommit).1
  let r := accObserverOnCompleted (E := E) a.state
  ({ state := r.1, distributor := d2 }, r.2)

/-- `DistributingAccumulator::subscribe` (accumulator.rs, lines 111-143):
under the distributor's lock, the current state is flattened into one
`Insert(relid, v)` per pair; if that batch is non-empty, the synthetic
catch-up transaction `on_start` / `on_updates(batch)` / `on_commit` is
delivered directly to the new observer with every result discarded
(`let _ = observer.on_start()` and so on); then the observer is registered
through the distributor's ordinary `subscribe`, whose handle is returned.
`TxnDistributor::subscribe` never fails (spec section 4.2), so the
`Result<usize, ObserverBox>` of the source is always the `Ok` handle. -/
def DistributingAccumulator.subscribe (a : DistributingAccumulator V E)
    (o : MockObserver V E) : DistributingAccumulator V E × Nat :=
  let init := snapshotUpdates a.state fun r v => Update.Insert r v
  let o' :=
    if init.isEmpty then o
    else
      let o1 := (deliver o Event.OnStart).1
      let o2 := (deliver o1 (Event.OnUpdates init)).1
      (deliver o2 Event.OnCommit).1
  let r := a.distributor.subscribe o'
  ({ a with distributor := r.1 }, r.2)

/-- Registration through the bare surface: `create_observable`
(accumulator.rs, lines 90-95) hands out an `UpdatesObservable` backed
directly by the distributor, so subscribing through it is the distributor's
ordinary `subscribe` with no catch-up (spec section 4.4, the bare
observable path). -/
def DistributingAccumulator.subscribeViaObservable (a : DistributingAccumulator V E)
    (o : MockObserver V E) : DistributingAccumulator V E × Nat :=
  let r := a.distributor.subscribe o
  ({ a with distributor := r.1 }, r.2)

/-- One upstream lifecycle call, the unit of the fan-out equivalence
claims. -/
inductive LifecycleCall (V : Type u) where
  | start
  | updates (ups : List (Update V))
  | commit
  | completed

/-- Dispatch of one upstream lifecycle call on the accumulator. -/
def runCall [DecidableEq V] (a : DistributingAccumulator V E) :
    LifecycleCall V → DistributingAccumulator V E × Except E Unit
  | LifecycleCall.start => a.on_start
  | LifecycleCall.updates ups => a.on_updates ups
  | LifecycleCall.commit => a.on_commit
  | LifecycleCall.completed => a.on_completed

/-- Running a whole sequence of upstream lifecycle calls, discarding the
per-call results. -/
def runCalls [DecidableEq V] (a : DistributingAccumulator V E) :
    List (LifecycleCall V) → DistributingAccumulator V E
  | [] => a
  | c :: cs => runCalls (runCall a c).1 cs

/-- The received log of the subscriber registered under handle `k`, `none`
when no such subscriber exists. -/
def receivedAt : List (Nat × MockObserver V E) → Nat → Option (List (Event V))
  | [], _ => none
  | (h, o) :: rest, k => if h = k then some o.received else receivedAt rest k

/-- The synthetic catch-up transaction a directly subscribing observer is
sent before registration: nothing when the flattened snapshot is empty, the
start/batch/commit triplet otherwise. -/
def catchupEvents (s : Store V) : List (Event V) :=
  let b := snapshotUpdates s fun r v => Update.Insert r v
  if b.isEmpty then [] else [Event.OnStart, Event.OnUpdates b, Event.OnCommit]

/-- The synthetic tear-down transaction sent through the distributor by
`on_completed`: nothing when the flattened snapshot is empty, the
start/deletion-batch/commit triplet otherwise. -/
def teardownEvents (s : Store V) : List (Event V) :=
  let ds := snapshotUpdates s fun r v => Update.DeleteValue r v
  if ds.isEmpty then [] else [Event.OnStart, Event.OnUpdates ds, Event.OnCommit]

/-- The exact sequence of events one upstream lifecycle call makes the
distributor deliver to every registered subscriber, given the accumulated
state the call starts from. -/
def callEvents (s : Store V) : LifecycleCall V → List (Event V)
  | LifecycleCall.start => [Event.OnStart]
  | LifecycleCall.updates ups => [Event.OnUpdates ups]
  | LifecycleCall.commit => [Event.OnCommit]
  | LifecycleCall.completed => Event.OnCompleted :: teardownEvents s

/-- Flattening a snapshot with a constructor `mk` is mapping `mk` over its
pairs. -/
theorem snapshotUpdates_eq_map (s : Store V) (mk : Nat → V → Update V) :
    snapshotUpdates s mk = (snapshotPairs s).map fun q => mk q.1 q.2 := by
  simp [snapshotUpdates, snapshotPairs, List.map_flatMap, List.map_map, Function.comp_def]

/-- The flattened snapshot is empty exactly when the snapshot holds no
pair. -/
theorem snapshotUpdates_eq_nil_iff (s : Store V) (mk : Nat → V → Update V) :
    snapshotUpdates s mk = [] ↔ snapshotPairs s = [] := by
  rw [snapshotUpdates_eq_map]
  exact List.map_eq_nil_iff

/-- Bool form of `snapshotUpdates_eq_nil_iff`, for the `is_empty` tests in
`subscribe` and `on_completed`. -/
theorem snapshotUpdates_isEmpty_eq_false (s : Store V) (mk : Nat → V → Update V)
    (hne : snapshotPairs s ≠ []) : (snapshotUpdates s mk).isEmpty = false := by
  rw [List.isEmpty_eq_false]
  exact fun h => hne ((snapshotUpdates_eq_nil_iff s mk).1 h)

/-- Delivering an event to every registry entry appends it to the log found
at any handle. -/
theorem receivedAt_map_deliver (subs : List (Nat × MockObserver V E)) (e : Event V) (k : Nat) :
    receivedAt (subs.map fun p => (p.1, (deliver p.2 e).1)) k
      = (receivedAt subs k).map fun l => l ++ [e] := by
  induction subs with
  | nil => rfl
  | cons p rest ih =>
    obtain ⟨h, o⟩ := p
    by_cases hk : h = k
    · simp [receivedAt, deliver, hk]
    · simp only [List.map_cons, receivedAt, if_neg hk]
      simpa [deliver] using ih

/-- A log found in a registry is still found after entries are appended on
the right. -/
theorem receivedAt_append_of_some (subs t : List (Nat × MockObserver V E)) (k : Nat)
    (l : List (Event V)) (hsome : receivedAt subs k = some l) :
    receivedAt (subs ++ t) k = some l := by
  induction subs with
  | nil => simp [receivedAt] at hsome
  | cons p rest ih =>
    obtain ⟨h, o⟩ := p
    by_cases hk : h = k
    · simpa [receivedAt, hk] using hsome
    · rw [List.cons_append]
      simp only [receivedAt, if_neg hk] at hsome ⊢
      exact ih hsome

/-- Between two distributor states, every registered log grows by the same
suffix `s`: the uniform-fan-out relation behind the equivalence claims. -/
def distAppends (d d' : TxnDistributor V E) (s : List (Event V)) : Prop :=
  ∀ k l, receivedAt d.subscribers k = some l → receivedAt d'.subscribers k = some (l ++ s)

theorem distAppends_refl (d : TxnDistributor V E) : distAppends d d [] := by
  intro k l h
  simpa using h

theorem distAppends_trans {d1 d2 d3 : TxnDistributor V E} {s1 s2 : List (Event V)}
    (h12 : distAppends d1 d2 s1) (h23 : distAppends d2 d3 s2) :
    distAppends d1 d3 (s1 ++ s2) := by
  intro k l h
  have := h23 k (l ++ s1) (h12 k l h)
  simpa [List.append_assoc] using this

/-- One broadcast appends exactly the broadcast event to every registered
log. -/
theorem distAppends_broadcast (d : TxnDistributor V E) (e : Event V) :
    distAppends d (d.broadcast e).1 [e] := by
  intro k l h
  simp [TxnDistributor.broadcast, receivedAt_map_deliver, h]

/-- `on_completed` makes the distributor deliver, to every registered
subscriber, first the completion and then (when the batch of deletions is
non-empty) the tear-down transaction. -/
theorem distAppends_on_completed (a : DistributingAccumulator V E) :
    distAppends a.distributor a.on_completed.1.distributor
      (Event.OnCompleted :: teardownEvents a.state) := by
  intro k l h
  have h1 := distAppends_broadcast a.distributor Event.OnCompleted k l h
  by_cases hds : (snapshotUpdates a.state fun r v => Update.DeleteValue r v).isEmpty
  · simp only [DistributingAccumulator.on_completed, teardownEvents, hds, if_pos, if_true]
    simpa using h1
  · rw [Bool.not_eq_true] at hds
    have h2 := distAppends_broadcast ((a.distributor.broadcast Event.OnCompleted).1)
      Event.OnStart k (l ++ [Event.OnCompleted]) h1
    have h3 := distAppends_broadcast _
      (Event.OnUpdates (snapshotUpdates a.state fun r v => Update.DeleteValue r v)) k _ h2
    have h4 := distAppends_broadcast _ Event.OnCommit k _ h3
    simp only [DistributingAccumulator.on_completed, teardownEvents, hds, if_false,
      Bool.false_eq_true]
    simpa [List.append_assoc] using h4

/-- Every upstream lifecycle call makes the distributor append exactly
`callEvents` to every registered subscriber's log. -/
theorem distAppends_runCall [DecidableEq V] (a : DistributingAccumulator V E)
    (c : LifecycleCall V) :
    distAppends a.distributor (runCall a c).1.distributor (callEvents a.state c) := by
  cases c with
  | start => exact distAppends_broadcast a.distributor Event.OnStart
  | updates ups => exact distAppends_broadcast a.distributor (Event.OnUpdates ups)
  | commit => exact distAppends_broadcast a.distributor Event.OnCommit
  | completed => exact distAppends_on_completed a

/-- Over any sequence of lifecycle calls there is one common suffix by
which every registered subscriber's log grows. -/
theorem runCalls_appends [DecidableEq V] (cs : List (LifecycleCall V)) :
    ∀ a : DistributingAccumulator V E,
      ∃ s, distAppends a.distributor (runCalls a cs).distributor s := by
  induction cs with
  | nil => exact fun a => ⟨[], distAppends_refl a.distributor⟩
  | cons c cs ih =>
    intro a
    obtain ⟨s, hs⟩ := ih (runCall a c).1
    exact ⟨callEvents a.state c ++ s, distAppends_trans (distAppends_runCall a c) hs⟩

/-- Closed form of `DistributingAccumulator::subscribe`: the state is
untouched, the observer is delivered exactly the catch-up events and then
registered at the back of the registry under the next handle, which is
returned. -/
theorem subscribe_eq (a : DistributingAccumulator V E) (o : MockObserver V E) :
    a.subscribe o
      = ({ state := a.state,
           distributor :=
             { nextHandle := a.distributor.nextHandle + 1,
               subscribers := a.distributor.subscribers
                 ++ [(a.distributor.nextHandle,
                      { o with received := o.received ++ catchupEvents a.state })] } },
         a.distributor.nextHandle) := by
  obtain ⟨st, d⟩ := a
  obtain ⟨rec, rsp⟩ := o
  by_cases hb : (snapshotUpdates st fun r v => Update.Insert r v).isEmpty
  · simp [DistributingAccumulator.subscribe, catchupEvents, TxnDistributor.subscribe,
      deliver, hb]
  · rw [Bool.not_eq_true] at hb
    simp [DistributingAccumulator.subscribe, catchupEvents, TxnDistributor.subscribe,
      deliver, hb]

/-- With a well-formed store the snapshot's pair list has no duplicates:
values are distinct within a relation and relation ids are distinct across
entries. -/
theorem snapshotPairs_nodup (s : Store V) (hwf : WFStore s) : (snapshotPairs s).Nodup := by
  rw [snapshotPairs, List.nodup_flatMap]
  constructor
  · intro p hp
    exact (hwf.2 p hp).map fun v w hvw => by simpa using congrArg Prod.snd hvw
  · have hp : List.Pairwise (fun p q : Nat × List V => p.1 ≠ q.1) s := by
      have hkeys := hwf.1
      rwa [List.Nodup, List.pairwise_map] at hkeys
    refine hp.imp ?_
    intro p q hne x hx hy
    obtain ⟨v, _, hxv⟩ := List.mem_map.1 hx
    obtain ⟨w, _, hyw⟩ := List.mem_map.1 hy
    exact hne (by simpa using congrArg Prod.fst (hxv.trans hyw.symm))

/-- With a well-formed store the catch-up batch has no duplicate insert:
one `Insert` per snapshot pair. -/
theorem catchupBatch_nodup (s : Store V) (hwf : WFStore s) :
    (snapshotUpdates s fun r v => Update.Insert r v).Nodup := by
  rw [snapshotUpdates_eq_map]
  refine (snapshotPairs_nodup s hwf).map ?_
  intro q q' hq
  obtain ⟨r, v⟩ := q
  obtain ⟨r', v'⟩ := q'
  simpa [Prod.ext_iff] using hq

/-- An update belongs to the catch-up batch exactly when it is the insert
of a pair of the snapshot. -/
theorem mem_catchupBatch_iff (s : Store V) (u : Update V) :
    u ∈ (snapshotUpdates s fun r v => Update.Insert r v)
      ↔ ∃ r v, (r, v) ∈ snapshotPairs s ∧ u = Update.Insert r v := by
  rw [snapshotUpdates_eq_map, List.mem_map]
  constructor
  · rintro ⟨⟨r, v⟩, hmem, rfl⟩
    exact ⟨r, v, hmem, rfl⟩
  · rintro ⟨r, v, hmem, rfl⟩
    exact ⟨(r, v), hmem, rfl⟩

/-- The store of a fresh accumulator is well-formed. -/
theorem wfStore_nil : WFStore ([] : Store V) :=
  ⟨List.nodup_nil, fun p hp => absurd hp (List.not_mem_nil p)⟩

/-- Inserting keeps the relation ids: the matched entry is updated in
place, a missing relation is appended at the back. -/
theorem storeInsert_map_fst [DecidableEq V] (s : Store V) (r : Nat) (v : V) :
    (storeInsert s r v).map Prod.fst
      = if r ∈ s.map Prod.fst then s.map Prod.fst else s.map Prod.fst ++ [r] := by
  induction s with
  | nil => simp [storeInsert]
  | cons p rest ih =>
    obtain ⟨r', vs⟩ := p
    by_cases hr : r' = r
    · simp [storeInsert, hr]
    · simp only [storeInsert, if_neg hr, List.map_cons, ih]
      have hmem : (r ∈ r' :: rest.map Prod.fst) ↔ r ∈ rest.map Prod.fst := by
        rw [List.mem_cons]
        exact or_iff_right fun h => hr h.symm
      by_cases hm : r ∈ rest.map Prod.fst
      · rw [if_pos hm, if_pos (hmem.mpr hm)]
      · rw [if_neg hm, if_neg fun h => hm (hmem.mp h)]
        rfl

/-- Deleting never changes the relation ids. -/
theorem storeDelete_map_fst [DecidableEq V] (s : Store V) (r : Nat) (v : V) :
    (storeDelete s r v).map Prod.fst = s.map Prod.fst := by
  induction s with
  | nil => rfl
  | cons p rest ih =>
    obtain ⟨r', vs⟩ := p
    by_cases hr : r' = r <;> simp [storeDelete, hr, ih]

/-- Inserting keeps every entry's value list duplicate-free. -/
theorem storeInsert_values_nodup [DecidableEq V] (s : Store V) (r : Nat) (v : V)
    (hvals : ∀ p ∈ s, List.Nodup p.2) :
    ∀ p ∈ storeInsert s r v, List.Nodup p.2 := by
  induction s with
  | nil =>
    intro p hp
    simp only [storeInsert, List.mem_singleton] at hp
    simp [hp]
  | cons q rest ih =>
    obtain ⟨r', vs⟩ := q
    intro p hp
    have hhead : vs.Nodup := hvals (r', vs) (List.mem_cons_self _ _)
    by_cases hr : r' = r
    · simp only [storeInsert, if_pos hr, List.mem_cons] at hp
      rcases hp with hp | hp
      · subst hp
        by_cases hv : v ∈ vs
        · simpa [hv] using hhead
        · simp only [hv, if_false]
          rw [List.nodup_append]
          exact ⟨hhead, List.nodup_singleton v, by simpa [List.disjoint_singleton] using hv⟩
      · exact hvals p (List.mem_cons_of_mem _ hp)
    · simp only [storeInsert, if_neg hr, List.mem_cons] at hp
      rcases hp with hp | hp
      · subst hp
        exact hhead
      · exact ih (fun q hq => hvals q (List.mem_cons_of_mem _ hq)) p hp

/-- Deleting keeps every entry's value list duplicate-free. -/
theorem storeDelete_values_nodup [DecidableEq V] (s : Store V) (r : Nat) (v : V)
    (hvals : ∀ p ∈ s, List.Nodup p.2) :
    ∀ p ∈ storeDelete s r v, List.Nodup p.2 := by
  induction s with
  | nil => intro p hp; cases hp
  | cons q rest ih =>
    obtain ⟨r', vs⟩ := q
    intro p hp
    have hhead : vs.Nodup := hvals (r', vs) (List.mem_cons_self _ _)
    by_cases hr : r' = r
    · simp only [storeDelete, if_pos hr, List.mem_cons] at hp
      rcases hp with hp | hp
      · subst hp
        exact hhead.erase v
      · exact hvals p (List.mem_cons_of_mem _ hp)
    · simp only [storeDelete, if_neg hr, List.mem_cons] at hp
      rcases hp with hp | hp
      · subst hp
        exact hhead
      · exact ih (fun q hq => hvals q (List.mem_cons_of_mem _ hq)) p hp

/-- `DeltaStore.apply` of an insert preserves well-formedness. -/
theorem wfStore_storeInsert [DecidableEq V] (s : Store V) (r : Nat) (v : V)
    (hwf : WFStore s) : WFStore (storeInsert s r v) := by
  obtain ⟨hkeys, hvals⟩ := hwf
  refine ⟨?_, storeInsert_values_nodup s r v hvals⟩
  rw [storeInsert_map_fst]
  by_cases hm : r ∈ s.map Prod.fst
  · simpa [hm] using hkeys
  · simp only [hm, if_false]
    rw [List.nodup_append]
    exact ⟨hkeys, List.nodup_singleton r, by simpa [List.disjoint_singleton] using hm⟩

/-- `DeltaStore.apply` of a delete preserves well-formedness. -/
theorem wfStore_storeDelete [DecidableEq V] (s : Store V) (r : Nat) (v : V)
    (hwf : WFStore s) : WFStore (storeDelete s r v) := by
  obtain ⟨hkeys, hvals⟩ := hwf
  refine ⟨?_, storeDelete_values_nodup s r v hvals⟩
  rw [storeDelete_map_fst]
  exact hkeys

/-- Applying any `DeltaOp` preserves well-formedness. -/
theorem wfStore_applyUpdate [DecidableEq V] (s : Store V) (u : Update V)
    (hwf : WFStore s) : WFStore (applyUpdate s u) := by
  cases u with
  | Insert r v => exact wfStore_storeInsert s r v hwf
  | DeleteValue r v => exact wfStore_storeDelete s r v hwf

/-- Applying a whole batch preserves well-formedness. -/
theorem wfStore_foldl [DecidableEq V] (ups : List (Update V)) :
    ∀ s : Store V, WFStore s → WFStore (ups.foldl applyUpdate s) := by
  induction ups with
  | nil => exact fun s hwf => hwf
  | cons u rest ih => exact fun s hwf => ih _ (wfStore_applyUpdate s u hwf)

/-- Every upstream lifecycle call preserves well-formedness of the
accumulated state, so every state reachable from a fresh accumulator is
well-formed and the hypotheses of the catch-up claims are met. -/
theorem wfStore_runCall [DecidableEq V] {E' : Type v} (a : DistributingAccumulator V E')
    (c : LifecycleCall V) (hwf : WFStore a.state) : WFStore (runCall a c).1.state := by
  cases c with
  | start => exact hwf
  | commit => exact hwf
  | updates ups => exact wfStore_foldl ups a.state hwf
  | completed => exact wfStore_nil

/-- A concrete observer accepting every call, for the concrete instances
below. -/
def okObs : MockObserver Nat Nat :=
  { received := [], respond := fun _ => Except.ok () }

/-- A concrete observer answering every call with error 7, for the
concrete instances below. -/
def errObs : MockObserver Nat Nat :=
  { received := [], respond := fun _ => Except.error 7 }

/-- A concrete accumulator holding value 5 in relation 1, with the
accepting observer registered under handle 0. -/
def smallAcc : DistributingAccumulator Nat Nat :=
  { state := [(1, [5])],
    distributor := { nextHandle := 1, subscribers := [(0, okObs)] } }

/-- A concrete accumulator holding value 5 in relation 1, with both
concrete observers registered. -/
def twoSubAcc : DistributingAccumulator Nat Nat :=
  { state := [(1, [5])],
    distributor := { nextHandle := 2, subscribers := [(0, okObs), (1, errObs)] } }

/-- A concrete accumulator whose snapshot holds a relation but no value
pair at all, with the accepting observer registered under handle 0. -/
def emptySnapAcc : DistributingAccumulator Nat Nat :=
  { state := [(3, [])],
    distributor := { nextHandle := 1, subscribers := [(0, okObs)] } }

/-- Claim C1 is false as stated: at the concrete accumulator `smallAcc`,
whose accumulated state is non-empty, the sole registered subscriber's log
after `on_completed` starts with the `on_completed` notification and only
then holds the synthetic deletion transaction — the subscriber receives
`on_completed` before the deletion transaction, not after it. -/
theorem completedBeforeTeardownCounterexample :
    receivedAt smallAcc.on_completed.1.distributor.subscribers 0
      = some [Event.OnCompleted, Event.OnStart,
              Event.OnUpdates [Update.DeleteValue 1 5], Event.OnCommit]
    ∧ (receivedAt smallAcc.on_completed.1.distributor.subscribers 0).map
        (fun l => l.head?) = some (some Event.OnCompleted) := by
  exact ⟨rfl, rfl⟩

/-- Claim C1 (amended): on every `on_completed` whose accumulated state is
non-empty, each currently registered subscriber observes, in this order,
first exactly one `on_completed` notification and afterwards the synthetic
deletion transaction — `on_start`, one `on_updates` batch holding the
deletion of every snapshot pair, `on_commit`; no subscriber receives more
than one `on_completed`. -/
theorem onCompletedDeliversCompleteThenTeardown (a : DistributingAccumulator V E)
    (k : Nat) (l : List (Event V)) (hne : snapshotPairs a.state ≠ [])
    (h : receivedAt a.distributor.subscribers k = some l) :
    receivedAt a.on_completed.1.distributor.subscribers k
      = some (l ++ [Event.OnCompleted, Event.OnStart,
                    Event.OnUpdates (snapshotUpdates a.state
                      fun r v => Update.DeleteValue r v),
                    Event.OnCommit]) := by
  have hnil := snapshotUpdates_isEmpty_eq_false a.state
    (fun r v => Update.DeleteValue r v) hne
  have hmain := distAppends_on_completed a k l h
  simp only [teardownEvents, hnil, Bool.false_eq_true, if_false] at hmain
  exact hmain

/-- Claim C1 (amended) at a concrete input: `smallAcc` has a non-empty
snapshot and a subscriber with an empty log under handle 0, and after
`on_completed` that log is the completion followed by the deletion
transaction. -/
theorem onCompletedDeliversCompleteThenTeardownWitness :
    (snapshotPairs smallAcc.state ≠ []
      ∧ receivedAt smallAcc.distributor.subscribers 0 = some [])
    ∧ receivedAt smallAcc.on_completed.1.distributor.subscribers 0
        = some ([] ++ [Event.OnCompleted, Event.OnStart,
                       Event.OnUpdates (snapshotUpdates smallAcc.state
                         fun r v => Update.DeleteValue r v),
                       Event.OnCommit]) :=
  ⟨⟨by decide, rfl⟩,
   onCompletedDeliversCompleteThenTeardown smallAcc 0 [] (by decide) rfl⟩

/-- Claim C2: on every `subscribe` whose accumulated state is non-empty,
the new observer is delivered, before being registered, exactly one
synthetic transaction — `on_start`, then a single `on_updates` batch
holding exactly one `Insert(r, v)` for each (relation, value) pair of the
snapshot and nothing else, then `on_commit` — and the handle returned to
the caller is the one produced by the distributor's ordinary `subscribe`
for that observer. -/
theorem subscribeCatchupExact (a : DistributingAccumulator V E) (o : MockObserver V E)
    (hwf : WFStore a.state) (hne : snapshotPairs a.state ≠ []) :
    (a.subscribe o).2 = a.distributor.nextHandle
    ∧ (a.subscribe o).1.distributor.subscribers
        = a.distributor.subscribers
          ++ [(a.distributor.nextHandle,
               { o with received := o.received
                   ++ [Event.OnStart,
                       Event.OnUpdates (snapshotUpdates a.state
                         fun r v => Update.Insert r v),
                       Event.OnCommit] })]
    ∧ (snapshotUpdates a.state fun r v => Update.Insert r v).Nodup
    ∧ ∀ u, u ∈ (snapshotUpdates a.state fun r v => Update.Insert r v)
        ↔ ∃ r v, (r, v) ∈ snapshotPairs a.state ∧ u = Update.Insert r v := by
  have hnil := snapshotUpdates_isEmpty_eq_false a.state
    (fun r v => Update.Insert r v) hne
  have hsub := subscribe_eq a o
  refine ⟨by rw [hsub], ?_, catchupBatch_nodup a.state hwf,
    fun u => mem_catchupBatch_iff a.state u⟩
  rw [hsub]
  simp [catchupEvents, hnil]

/-- Claim C2 at a concrete input: subscribing the accepting observer to
`smallAcc`, whose well-formed snapshot holds the single pair (1, 5). -/
theorem subscribeCatchupExactWitness :
    (WFStore smallAcc.state ∧ snapshotPairs smallAcc.state ≠ [])
    ∧ ((smallAcc.subscribe okObs).2 = smallAcc.distributor.nextHandle
      ∧ (smallAcc.subscribe okObs).1.distributor.subscribers
          = smallAcc.distributor.subscribers
            ++ [(smallAcc.distributor.nextHandle,
                 { okObs with received := okObs.received
                     ++ [Event.OnStart,
                         Event.OnUpdates (snapshotUpdates smallAcc.state
                           fun r v => Update.Insert r v),
                         Event.OnCommit] })]
      ∧ (snapshotUpdates smallAcc.state fun r v => Update.Insert r v).Nodup
      ∧ ∀ u, u ∈ (snapshotUpdates smallAcc.state fun r v => Update.Insert r v)
          ↔ ∃ r v, (r, v) ∈ snapshotPairs smallAcc.state ∧ u = Update.Insert r v) :=
  ⟨⟨⟨by decide, by decide⟩, by decide⟩,
   subscribeCatchupExact smallAcc okObs ⟨by decide, by decide⟩ (by decide)⟩

/-- Claim C3: for every sequence of lifecycle calls issued to the
accumulator, any two subscribers registered before the sequence began —
whether via `subscribe` or via an observable from `create_observable`, both
of which place them in the same distributor registry — observe identical
call sequences: both logs grow by one common suffix of events carrying the
same payloads in the same order. -/
theorem fanOutEquivalence [DecidableEq V] (cs : List (LifecycleCall V))
    (a : DistributingAccumulator V E) (k1 k2 : Nat) (l1 l2 : List (Event V))
    (h1 : receivedAt a.distributor.subscribers k1 = some l1)
    (h2 : receivedAt a.distributor.subscribers k2 = some l2) :
    ∃ s, receivedAt (runCalls a cs).distributor.subscribers k1 = some (l1 ++ s)
      ∧ receivedAt (runCalls a cs).distributor.subscribers k2 = some (l2 ++ s) := by
  obtain ⟨s, hs⟩ := runCalls_appends cs a
  exact ⟨s, hs k1 l1 h1, hs k2 l2 h2⟩

/-- Claim C3 at a concrete input: a full transaction followed by a
completion, issued to an accumulator with two registered subscribers. -/
theorem fanOutEquivalenceWitness :
    (receivedAt twoSubAcc.distributor.subscribers 0 = some []
      ∧ receivedAt twoSubAcc.distributor.subscribers 1 = some [])
    ∧ ∃ s,
        receivedAt (runCalls twoSubAcc
            [LifecycleCall.start, LifecycleCall.updates [Update.Insert 2 7],
             LifecycleCall.commit,
             LifecycleCall.completed]).distributor.subscribers 0 = some ([] ++ s)
        ∧ receivedAt (runCalls twoSubAcc
            [LifecycleCall.start, LifecycleCall.updates [Update.Insert 2 7],
             LifecycleCall.commit,
             LifecycleCall.completed]).distributor.subscribers 1 = some ([] ++ s) :=
  ⟨⟨rfl, rfl⟩,
   fanOutEquivalence
     [LifecycleCall.start, LifecycleCall.updates [Update.Insert 2 7],
      LifecycleCall.commit, LifecycleCall.completed]
     twoSubAcc 0 1 [] [] rfl rfl⟩

/-- Claim C4: errors an observer returns during the synthetic catch-up
transaction of `subscribe` or the synthetic deletion transaction of
`on_completed` are discarded — whatever answers the observer gives, the
remaining synthetic calls of the transaction are still delivered,
`subscribe` still registers the observer under the distributor's handle and
returns it, and `on_completed` still clears the state and returns without
propagating any subscriber error. -/
theorem syntheticErrorsDiscarded (a : DistributingAccumulator V E)
    (rec : List (Event V)) (rsp : Event V → Except E Unit) :
    (a.subscribe { received := rec, respond := rsp }).2 = a.distributor.nextHandle
    ∧ (a.subscribe { received := rec, respond := rsp }).1.distributor.subscribers
        = a.distributor.subscribers
          ++ [(a.distributor.nextHandle,
               { received := rec ++ catchupEvents a.state, respond := rsp })]
    ∧ a.on_completed.2 = Except.ok ()
    ∧ a.on_completed.1.state = [] := by
  have hsub := subscribe_eq a { received := rec, respond := rsp }
  exact ⟨by rw [hsub], by rw [hsub], rfl, rfl⟩

/-- Claim C5: an observer registered through an observable obtained from
`create_observable` while the accumulated state is non-empty is stored with
its log unchanged — it receives no catch-up and no replay of previously
committed state, and the accumulator's state is untouched. -/
theorem bareSubscribeNoCatchup (a : DistributingAccumulator V E) (o : MockObserver V E)
    (_hne : snapshotPairs a.state ≠ []) :
    (a.subscribeViaObservable o).1.distributor.subscribers
        = a.distributor.subscribers ++ [(a.distributor.nextHandle, o)]
    ∧ (a.subscribeViaObservable o).2 = a.distributor.nextHandle
    ∧ (a.subscribeViaObservable o).1.state = a.state :=
  ⟨rfl, rfl, rfl⟩

/-- Claim C5 at a concrete input: registering the rejecting observer
through the bare surface of `twoSubAcc`, whose snapshot is non-empty. -/
theorem bareSubscribeNoCatchupWitness :
    snapshotPairs twoSubAcc.state ≠ []
    ∧ ((twoSubAcc.subscribeViaObservable errObs).1.distributor.subscribers
        = twoSubAcc.distributor.subscribers
          ++ [(twoSubAcc.distributor.nextHandle, errObs)]
      ∧ (twoSubAcc.subscribeViaObservable errObs).2 = twoSubAcc.distributor.nextHandle
      ∧ (twoSubAcc.subscribeViaObservable errObs).1.state = twoSubAcc.state) :=
  ⟨by decide, bareSubscribeNoCatchup twoSubAcc errObs (by decide)⟩

/-- Claim C6: after every `on_completed`, whatever the accumulated state
was beforehand, `get_current_state` yields the empty snapshot. -/
theorem onCompletedClearsState (a : DistributingAccumulator V E) :
    a.on_completed.1.get_current_state = [] := rfl

/-- Claim C7: on every `subscribe` whose accumulated state is empty, no
synthetic call at all is delivered to the new observer before it is
registered: it is stored with its log unchanged. -/
theorem subscribeEmptySnapshotNoSynthetic (a : DistributingAccumulator V E)
    (o : MockObserver V E) (hemp : snapshotPairs a.state = []) :
    (a.subscribe o).1.distributor.subscribers
        = a.distributor.subscribers ++ [(a.distributor.nextHandle, o)]
    ∧ (a.subscribe o).2 = a.distributor.nextHandle := by
  have hb : (snapshotUpdates a.state fun r v => Update.Insert r v) = [] :=
    (snapshotUpdates_eq_nil_iff _ _).2 hemp
  have hsub := subscribe_eq a o
  constructor
  · rw [hsub]
    simp [catchupEvents, hb]
  · rw [hsub]

/-- Claim C7 at a concrete input: subscribing the accepting observer to
`emptySnapAcc`, whose snapshot holds a relation but no value pair. -/
theorem subscribeEmptySnapshotNoSyntheticWitness :
    snapshotPairs emptySnapAcc.state = []
    ∧ ((emptySnapAcc.subscribe okObs).1.distributor.subscribers
        = emptySnapAcc.distributor.subscribers
          ++ [(emptySnapAcc.distributor.nextHandle, okObs)]
      ∧ (emptySnapAcc.subscribe okObs).2 = emptySnapAcc.distributor.nextHandle) :=
  ⟨by decide, subscribeEmptySnapshotNoSynthetic emptySnapAcc okObs (by decide)⟩

/-- Claim C9: `subscribe` leaves the accumulated state unchanged and
delivers nothing to any already-registered subscriber — the synthetic
catch-up goes only to the new, not-yet-registered observer. -/
theorem subscribeFrame (a : DistributingAccumulator V E) (o : MockObserver V E)
    (k : Nat) (l : List (Event V))
    (h : receivedAt a.distributor.subscribers k = some l) :
    (a.subscribe o).1.get_current_state = a.get_current_state
    ∧ receivedAt (a.subscribe o).1.distributor.subscribers k = some l := by
  have hsub := subscribe_eq a o
  constructor
  · rw [hsub]
    rfl
  · rw [hsub]
    exact receivedAt_append_of_some _ _ k l h

/-- Claim C9 at a concrete input: subscribing the accepting observer to
`twoSubAcc` leaves the state and the log of the subscriber under handle 1
unchanged. -/
theorem subscribeFrameWitness :
    receivedAt twoSubAcc.distributor.subscribers 1 = some []
    ∧ ((twoSubAcc.subscribe okObs).1.get_current_state = twoSubAcc.get_current_state
      ∧ receivedAt (twoSubAcc.subscribe okObs).1.distributor.subscribers 1 = some []) :=
  ⟨rfl, subscribeFrame twoSubAcc okObs 1 [] rfl⟩

/-- Claim C10: the `Result` that `on_completed` returns to the caller is
exactly the result of the inner `AccumulatingObserver::on_completed`; the
result of forwarding the completion through the `TxnDistributor` is
discarded, so the call returns `Ok` even when a registered subscriber
rejects its completion notification. -/
theorem onCompletedResultIgnoresDistributor (a : DistributingAccumulator V E)
    (k : Nat) (o : MockObserver V E) (e : E)
    (_hmem : (k, o) ∈ a.distributor.subscribers)
    (_herr : o.respond Event.OnCompleted = Except.error e) :
    a.on_completed.2 = (accObserverOnCompleted (V := V) (E := E) a.state).2
    ∧ a.on_completed.2 = Except.ok () :=
  ⟨rfl, rfl⟩

/-- Claim C10 at a concrete input: `twoSubAcc` holds a registered
subscriber that rejects its completion with error 7, yet `on_completed`
answers `Ok`. -/
theorem onCompletedResultIgnoresDistributorWitness :
    ((1, errObs) ∈ twoSubAcc.distributor.subscribers
      ∧ errObs.respond Event.OnCompleted = Except.error 7)
    ∧ (twoSubAcc.on_completed.2
        = (accObserverOnCompleted (V := Nat) (E := Nat) twoSubAcc.state).2
      ∧ twoSubAcc.on_completed.2 = Except.ok ()) :=
  ⟨⟨List.mem_cons_of_mem _ (List.mem_cons_self _ _), rfl⟩,
   onCompletedResultIgnoresDistributor twoSubAcc 1 errObs 7
     (List.mem_cons_of_mem _ (List.mem_cons_self _ _)) rfl⟩

end Accumulate
